import Mathlib

/-!
Verification of the data-aggregation core of the Spotify dashboard
(`projeto/main.py`): the genre normalizer and the top-artist ranker.

The dataset is modelled as a list of `Track` records (one per CSV row).
Pandas/regex operations are embedded as follows:

* `re.sub(r'[^a-zA-Z0-9\s]', '', x.lower())` (the canonicalization key used
  both by the genre filter in `calculate_top_artists` and by the duplicate
  detection in `main`) becomes `canonKey`: each character is lowercased with
  the ASCII rule (Python `str.lower` restricted to ASCII, which is all the
  filter can let through) and kept iff it is an ASCII letter, an ASCII
  digit, or a character matched by Python's `\s`.
* `sort_values(['artist_name', 'popularity'], ascending=[True, False])`
  followed by `groupby('artist_name')` is a stable sort grouping each
  artist's rows contiguously, the rows of one artist stably sorted by
  popularity descending; per artist this is `sortPopDesc` (a stable
  insertion sort, which agrees with pandas' stable lexsort).
* `Series.nlargest(n)` / `DataFrame.nlargest(n, col)` (keep='first') is a
  stable descending sort by the value followed by `take n`.
* `groupby('artist_name')` iterates group keys in ascending order, so the
  per-artist statistics table is a map over the ascending list of distinct
  artist names (`artistKeys`).
* `DataFrame.round(1)` rounds the float column `avg_top3_popularity` to one
  decimal (`round1` on `ℚ`; a mean of at most three integers is never
  exactly halfway between two tenths, so the half-even tie rule of numpy
  agrees with `round`) and leaves the integer column
  `best_song_popularity` and the text column `best_song` unchanged.
-/

/-- Python's `\s` (and the character class used by `str.strip`):
tab..carriage-return, the file separators 28..31, space, next-line 133,
no-break space 160 and the Unicode space characters. -/
def isPySpace (c : Char) : Bool :=
  decide ((9 ≤ c.toNat ∧ c.toNat ≤ 13) ∨ (28 ≤ c.toNat ∧ c.toNat ≤ 32) ∨
    c.toNat = 133 ∨ c.toNat = 160 ∨ c.toNat = 5760 ∨
    (8192 ≤ c.toNat ∧ c.toNat ≤ 8202) ∨ c.toNat = 8232 ∨ c.toNat = 8233 ∨
    c.toNat = 8239 ∨ c.toNat = 8287 ∨ c.toNat = 12288)

/-- The character class `[a-zA-Z0-9\s]` of the regex
`re.sub(r'[^a-zA-Z0-9\s]', '', ·)`: characters this regex keeps. -/
def keepChar (c : Char) : Bool :=
  decide ((97 ≤ c.toNat ∧ c.toNat ≤ 122) ∨ (65 ≤ c.toNat ∧ c.toNat ≤ 90) ∨
    (48 ≤ c.toNat ∧ c.toNat ≤ 57)) || isPySpace c

/-- `x.lower()` followed by `re.sub(r'[^a-zA-Z0-9\s]', '', ·)`: the
canonicalization key of a genre label.  `Char.toLower` is exactly the ASCII
lowercase rule. -/
def canonKey (s : String) : String :=
  String.mk ((s.data.map Char.toLower).filter keepChar)

/-- Lexicographic comparison of strings by code point, Python's `<=` on
`str` (used to model `sorted`, which sorts ascending). -/
def charListLe : List Char → List Char → Bool
  | [], _ => true
  | _ :: _, [] => false
  | a :: as, b :: bs =>
    if a < b then true else if b < a then false else charListLe as bs

/-- String order as a proposition, for `List.insertionSort`. -/
def strLeR (a b : String) : Prop := charListLe a.data b.data = true

instance : DecidableRel strLeR := fun a b =>
  inferInstanceAs (Decidable (charListLe a.data b.data = true))

/-- One row of `SpotifyFeatures.csv`, restricted to the columns the ranking
logic touches; the audio-feature columns are opaque pass-through fields. -/
structure Track where
  genre : String
  artist_name : String
  track_name : String
  popularity : Int
deriving Repr, DecidableEq

/-- The rows of one artist, in their current order:
`filtered_data[filtered_data['artist_name'] == a]`. -/
def rowsOf (rows : List Track) (a : String) : List Track :=
  rows.filter (fun r => r.artist_name == a)

/-- `max` of a nonempty series of popularities (groups built by `groupby`
are never empty; the `[]` case is arbitrary). -/
def maxPopList : List Int → Int
  | [] => 0
  | p :: ps => ps.foldl max p

/-- Popularity-descending order on rows, for the stable sort
`sort_values(..., ascending=False)` and for `nlargest`. -/
def popDescR (a b : Track) : Prop := b.popularity ≤ a.popularity

instance : DecidableRel popDescR := fun a b =>
  inferInstanceAs (Decidable (b.popularity ≤ a.popularity))

/-- Stable sort of rows by popularity descending. -/
def sortPopDesc (rows : List Track) : List Track :=
  rows.insertionSort popDescR

/-- `pandas.unique`: distinct values in order of first occurrence. -/
def uniqueFirstAux (seen : List String) : List String → List String
  | [] => []
  | x :: xs =>
    if seen.contains x then uniqueFirstAux seen xs
    else x :: uniqueFirstAux (x :: seen) xs

def uniqueFirst (l : List String) : List String := uniqueFirstAux [] l

/-- The distinct artist names of a set of rows in ascending order: the keys
of `groupby('artist_name')` (pandas sorts group keys). -/
def artistKeys (rows : List Track) : List String :=
  (uniqueFirst (rows.map (fun r => r.artist_name))).insertionSort strLeR

/-- `data.groupby('artist_name')['popularity'].max()` evaluated at one
artist. -/
def artistMaxPop (data : List Track) (a : String) : Int :=
  maxPopList ((rowsOf data a).map (fun r => r.popularity))

/-- Descending order on artists by their maximum popularity, for
`artist_max_popularity.nlargest(500)`. -/
def capR (data : List Track) (a b : String) : Prop :=
  artistMaxPop data b ≤ artistMaxPop data a

instance (data : List Track) : DecidableRel (capR data) := fun a b =>
  inferInstanceAs (Decidable (artistMaxPop data b ≤ artistMaxPop data a))

/-- `artist_max_popularity.nlargest(500).index`: the 500 artists with the
highest maximum popularity (stable, first kept on ties). -/
def top500 (data : List Track) : List String :=
  (((artistKeys data).insertionSort (capR data)).take 500)

/-- The candidate selection of `calculate_top_artists`: the genre filter
when `genre_filter != 'Todos'`, otherwise the 500-artist cap
`data[data['artist_name'].isin(top_artists)]`. -/
def candidateRows (data : List Track) (genre_filter : String) : List Track :=
  if genre_filter ≠ "Todos" then
    data.filter (fun r => canonKey r.genre == canonKey genre_filter)
  else
    data.filter (fun r => (top500 data).contains r.artist_name)

/-- Rounding to one decimal, `DataFrame.round(1)` on the mean column. -/
def round1 (q : ℚ) : ℚ := ((round (10 * q) : ℤ) : ℚ) / 10

/-- The mean of a series of popularities. -/
def meanPop (ps : List Int) : ℚ := ((ps.sum : ℤ) : ℚ) / (ps.length : ℚ)

/-- `sorted_data.groupby('artist_name').head(3)` restricted to one artist:
its first three rows in the stable popularity-descending order. -/
def top3 (rows : List Track) (a : String) : List Track :=
  (sortPopDesc (rowsOf rows a)).take 3

/-- One row of the `artist_stats` table: the result of
`agg({'popularity': ['mean', 'max'], 'track_name': 'first'}).round(1)`
plus the `total_songs` column mapped from
`filtered_data['artist_name'].value_counts()`. -/
structure ArtistAggregate where
  artist_name : String
  avg_top3_popularity : ℚ
  best_song_popularity : Int
  best_song : String
  total_songs : Nat
deriving Repr, DecidableEq

def mkAgg (filtered : List Track) (a : String) : ArtistAggregate :=
  let t3 := top3 filtered a
  { artist_name := a
    avg_top3_popularity := round1 (meanPop (t3.map (fun r => r.popularity)))
    best_song_popularity := maxPopList (t3.map (fun r => r.popularity))
    best_song := (t3.head?.map (fun r => r.track_name)).getD ""
    total_songs := (rowsOf filtered a).length }

/-- Descending order on aggregates by `avg_top3_popularity`, for
`artist_stats.nlargest(10, 'avg_top3_popularity')`. -/
def avgDescR (x y : ArtistAggregate) : Prop :=
  y.avg_top3_popularity ≤ x.avg_top3_popularity

instance : DecidableRel avgDescR := fun x y =>
  inferInstanceAs (Decidable (y.avg_top3_popularity ≤ x.avg_top3_popularity))

/-- The ranking core `calculate_top_artists(genre_filter)`, as a function of
the loaded dataset and the filter. -/
def calculate_top_artists (data : List Track) (genre_filter : String) :
    List ArtistAggregate :=
  let filtered := candidateRows data genre_filter
  if filtered.length = 0 then []
  else
    (((artistKeys filtered).map (mkAgg filtered)).insertionSort avgDescR).take 10

/-- `genre.strip()`: Python strips the `str.isspace` characters from both
ends. -/
def pyStrip (l : List Char) : List Char :=
  ((l.dropWhile isPySpace).reverse.dropWhile isPySpace).reverse

/-- `re.sub` over the quote class of `main`: the characters `"`, `'` and
the backtick are replaced by `'`. -/
def subQuote (c : Char) : Char :=
  if c = '"' ∨ c = '\'' ∨ c = '`' then '\'' else c

/-- `re.sub(r'["\x22\x27\x60]', "'", genre.strip())` of `main`: the display
representative of a genre label. -/
def normalizeGenre (g : String) : String :=
  String.mk ((pyStrip g.data).map subQuote)

/-- The deduplication loop of `main`: iterate the labels, keep the
representative of each canonicalization key not seen before. -/
def keepReps : List String → List String → List String
  | [], _ => []
  | g :: gs, seen =>
    let n := normalizeGenre g
    let k := canonKey n
    if seen.contains k then keepReps gs seen
    else n :: keepReps gs (k :: seen)

/-- `genres = ['Todos'] + sorted(cleaned_genres)` of `main`, as a function
of the raw genre column. -/
def distinct_display_genres (labels : List String) : List String :=
  "Todos" :: (keepReps (uniqueFirst labels) []).insertionSort strLeR

/-! ## Concrete datasets used in examples and witnesses -/

/-- The worked example of the specification:
`[(Pop, A, "S1", 90), (Pop, A, "S2", 80), (Pop, A, "S3", 70),
(Pop, A, "S4", 60), (Pop, B, "S5", 95)]`. -/
def exampleDataset : List Track :=
  [ ⟨"Pop", "A", "S1", 90⟩, ⟨"Pop", "A", "S2", 80⟩, ⟨"Pop", "A", "S3", 70⟩,
    ⟨"Pop", "A", "S4", 60⟩, ⟨"Pop", "B", "S5", 95⟩ ]

/-- A dataset in which a row's genre label is literally the sentinel
string. -/
def sentinelGenreData : List Track := [⟨"Todos", "X", "T", 5⟩]

/-! ## Claims about candidate selection and the empty short circuit -/

/-- C4: for every dataset and every non-sentinel genre filter, the
candidate set is exactly the rows whose genre canonicalizes to the same
key as the filter; the 500-artist cap is not applied. -/
theorem claim_C4 (data : List Track) (filt : String) (h : filt ≠ "Todos") :
    candidateRows data filt =
      data.filter (fun r => canonKey r.genre == canonKey filt) := by
  simp only [candidateRows, if_pos h]

/-- Witness for C4 at the example dataset and the filter `"Pop"`. -/
theorem claim_C4_witness :
    ("Pop" ≠ "Todos") ∧
    candidateRows exampleDataset "Pop" =
      exampleDataset.filter (fun r => canonKey r.genre == canonKey "Pop") :=
  ⟨by decide, claim_C4 exampleDataset "Pop" (by decide)⟩

/-- C7: an empty candidate set makes `calculate_top_artists` return the
empty sequence (the function is total, so no error is ever raised). -/
theorem claim_C7 (data : List Track) (filt : String)
    (h : candidateRows data filt = []) :
    calculate_top_artists data filt = [] := by
  simp [calculate_top_artists, h]

/-- Witness for C7: the example dataset has no row matching `"Rock"`. -/
theorem claim_C7_witness :
    candidateRows exampleDataset "Rock" = [] ∧
    calculate_top_artists exampleDataset "Rock" = [] :=
  ⟨by decide, claim_C7 exampleDataset "Rock" (by decide)⟩

/-- C10: a filter equal to the sentinel `'Todos'` always takes the
500-artist-cap path, never the genre-matching path; a row whose genre
label canonicalizes to the sentinel's own key is selected iff its artist
is in the cap, exactly like every other row. -/
theorem claim_C10 (data : List Track) :
    candidateRows data "Todos" =
      data.filter (fun r => (top500 data).contains r.artist_name) ∧
    ∀ r ∈ data, canonKey r.genre = canonKey "Todos" →
      (r ∈ candidateRows data "Todos" ↔
        (top500 data).contains r.artist_name = true) := by
  have h : candidateRows data "Todos" =
      data.filter (fun r => (top500 data).contains r.artist_name) := by
    simp [candidateRows]
  refine ⟨h, fun r hr _ => ?_⟩
  rw [h, List.mem_filter]
  exact ⟨fun hm => hm.2, fun hc => ⟨hr, hc⟩⟩

/-- Witness for C10 at a dataset whose only row has genre `"Todos"`. -/
theorem claim_C10_witness :
    (⟨"Todos", "X", "T", 5⟩ : Track) ∈ candidateRows sentinelGenreData "Todos" ↔
      (top500 sentinelGenreData).contains "X" = true :=
  (claim_C10 sentinelGenreData).2 ⟨"Todos", "X", "T", 5⟩ (by decide) (by decide)

/-- C1: on the worked example with filter `"Pop"`, the ranking returns
`B` (average 95.0 of its single track, 1 song) before `A` (average 80.0 of
the top three 90, 80, 70; best song `"S1"` with popularity 90; 4 songs). -/
theorem claim_C1 :
    calculate_top_artists exampleDataset "Pop" =
      [ ⟨"B", 95, 95, "S5", 1⟩, ⟨"A", 80, 90, "S1", 4⟩ ] := by
  have hA : mkAgg exampleDataset "A" = ⟨"A", 80, 90, "S1", 4⟩ := by
    have h3 : top3 exampleDataset "A" =
        [⟨"Pop", "A", "S1", 90⟩, ⟨"Pop", "A", "S2", 80⟩, ⟨"Pop", "A", "S3", 70⟩] := by decide
    have hr : (rowsOf exampleDataset "A").length = 4 := by decide
    simp only [mkAgg, h3, hr, ArtistAggregate.mk.injEq]
    refine ⟨trivial, ?_, by decide, by decide, trivial⟩
    norm_num [meanPop, round1, round_eq]
  have hB : mkAgg exampleDataset "B" = ⟨"B", 95, 95, "S5", 1⟩ := by
    have h3 : top3 exampleDataset "B" = [⟨"Pop", "B", "S5", 95⟩] := by decide
    have hr : (rowsOf exampleDataset "B").length = 1 := by decide
    simp only [mkAgg, h3, hr, ArtistAggregate.mk.injEq]
    refine ⟨trivial, ?_, by decide, by decide, trivial⟩
    norm_num [meanPop, round1, round_eq]
  have hfil : candidateRows exampleDataset "Pop" = exampleDataset := by decide
  have hkeys : artistKeys exampleDataset = ["A", "B"] := by decide
  have hlen : exampleDataset.length = 5 := by decide
  simp only [calculate_top_artists, hfil, hlen, hkeys, List.map_cons, List.map_nil,
    hA, hB]
  norm_num [List.insertionSort, List.orderedInsert, avgDescR]
/-! ### Order facts for the sorting relations -/

instance : IsTotal Track popDescR :=
  ⟨fun a b => le_total b.popularity a.popularity⟩

instance : IsTrans Track popDescR :=
  ⟨fun _ _ _ hab hbc => le_trans hbc hab⟩

theorem charListLe_total (l1 l2 : List Char) :
    charListLe l1 l2 = true ∨ charListLe l2 l1 = true := by
  induction l1 generalizing l2 with
  | nil => left; rfl
  | cons a as ih =>
    cases l2 with
    | nil => right; rfl
    | cons b bs =>
      rcases lt_trichotomy a b with h | h | h
      · left; simp [charListLe, h]
      · subst h
        rcases ih bs with h2 | h2
        · left; simp [charListLe, lt_irrefl, h2]
        · right; simp [charListLe, lt_irrefl, h2]
      · right; simp [charListLe, h]

theorem charListLe_trans (l1 l2 l3 : List Char)
    (h12 : charListLe l1 l2 = true) (h23 : charListLe l2 l3 = true) :
    charListLe l1 l3 = true := by
  induction l1 generalizing l2 l3 with
  | nil => rfl
  | cons a as ih =>
    cases l2 with
    | nil => simp [charListLe] at h12
    | cons b bs =>
      cases l3 with
      | nil => simp [charListLe] at h23
      | cons c cs =>
        rcases lt_trichotomy a b with hab | hab | hab
        · rcases lt_trichotomy b c with hbc | hbc | hbc
          · simp [charListLe, lt_trans hab hbc]
          · subst hbc; simp [charListLe, hab]
          · simp [charListLe, hbc, lt_asymm hbc] at h23
        · subst hab
          simp only [charListLe, lt_irrefl, if_false, if_neg (lt_irrefl a)] at h12
          rcases lt_trichotomy a c with hac | hac | hac
          · simp [charListLe, hac]
          · subst hac
            simp only [charListLe, lt_irrefl, if_neg (lt_irrefl a)] at h23 ⊢
            exact ih bs cs h12 h23
          · simp [charListLe, hac, lt_asymm hac] at h23
        · simp [charListLe, hab, lt_asymm hab] at h12

instance : IsTotal String strLeR :=
  ⟨fun a b => charListLe_total a.data b.data⟩

instance : IsTrans String strLeR :=
  ⟨fun a b c => charListLe_trans a.data b.data c.data⟩
/-! ### Facts about maxima of popularity lists -/

theorem le_foldl_max (l : List Int) (p : Int) : p ≤ l.foldl max p := by
  induction l generalizing p with
  | nil => exact le_refl p
  | cons q l ih => exact le_trans (le_max_left p q) (ih (max p q))

theorem mem_le_foldl_max (l : List Int) (x : Int) :
    ∀ p, x ∈ l → x ≤ l.foldl max p := by
  induction l with
  | nil => intro p hx; cases hx
  | cons q l ih =>
    intro p hx
    rcases List.mem_cons.mp hx with h | h
    · subst h; exact le_trans (le_max_right p x) (le_foldl_max l (max p x))
    · exact ih (max p q) h

theorem foldl_max_eq_of_le {l : List Int} {p : Int} (h : ∀ q ∈ l, q ≤ p) :
    l.foldl max p = p := by
  induction l with
  | nil => rfl
  | cons q l ih =>
    have hq : q ≤ p := h q (List.mem_cons_self q l)
    rw [List.foldl_cons, max_eq_left hq]
    exact ih (fun r hr => h r (List.mem_cons_of_mem q hr))

theorem maxPopList_ge {l : List Int} {x : Int} (hx : x ∈ l) :
    x ≤ maxPopList l := by
  cases l with
  | nil => cases hx
  | cons p ps =>
    rcases List.mem_cons.mp hx with h | h
    · subst h; exact le_foldl_max ps x
    · exact mem_le_foldl_max ps x p h

theorem maxPopList_cons_of_le {p : Int} {ps : List Int}
    (h : ∀ q ∈ ps, q ≤ p) : maxPopList (p :: ps) = p :=
  foldl_max_eq_of_le h

/-! ### C2: the per-artist top-3 step -/

/-- C2: for every candidate set and artist, the kept rows are the first
three of a popularity-descending reordering of that artist's rows which is
(a) a permutation, (b) sorted by popularity descending, and (c) stable:
any subsequence of equal-popularity rows keeps its original order. -/
theorem claim_C2 (rows : List Track) (a : String) :
    top3 rows a = (sortPopDesc (rowsOf rows a)).take 3 ∧
    (top3 rows a).length ≤ 3 ∧
    (sortPopDesc (rowsOf rows a)).Perm (rowsOf rows a) ∧
    (sortPopDesc (rowsOf rows a)).Sorted popDescR ∧
    (∀ c : List Track, c.Sublist (rowsOf rows a) →
      (∀ x ∈ c, ∀ y ∈ c, x.popularity = y.popularity) →
      c.Sublist (sortPopDesc (rowsOf rows a))) := by
  refine ⟨rfl, ?_, List.perm_insertionSort popDescR _,
    List.sorted_insertionSort popDescR _, fun c hsub heq => ?_⟩
  · exact List.length_take_le 3 _
  · refine List.sublist_insertionSort ?_ hsub
    exact List.pairwise_of_forall_mem_list
      (fun x hx y hy => le_of_eq (heq y hy x hx))

/-- A two-row dataset whose artist has two tracks of equal popularity. -/
def tieData : List Track :=
  [⟨"Pop", "A", "T1", 70⟩, ⟨"Pop", "A", "T2", 70⟩]

/-- Witness for C2: the tied pair of `tieData` keeps its original order in
the sorted list. -/
theorem claim_C2_witness :
    tieData.Sublist (sortPopDesc (rowsOf tieData "A")) ∧
    (top3 tieData "A").length ≤ 3 :=
  ⟨(claim_C2 tieData "A").2.2.2.2 tieData
      ((show rowsOf tieData "A" = tieData by decide) ▸ List.Sublist.refl tieData)
      (by decide),
    (claim_C2 tieData "A").2.1⟩
/-! ### C9: idempotence of the canonicalization key -/

theorem char_ofNat_toNat_small {n : Nat} (h : n < 55296) :
    (Char.ofNat n).toNat = n := by
  have hv : n.isValidChar := Or.inl h
  rw [Char.ofNat, dif_pos hv]
  rfl

theorem toLower_idem (c : Char) : c.toLower.toLower = c.toLower := by
  simp only [Char.toLower]
  by_cases h : c.toNat ≥ 65 ∧ c.toNat ≤ 90
  · rw [if_pos h]
    have h1 : (Char.ofNat (c.toNat + 32)).toNat = c.toNat + 32 :=
      char_ofNat_toNat_small (by omega)
    rw [if_neg (by rw [h1]; omega)]
  · rw [if_neg h, if_neg h]

/-- C9: `canonicalize` is idempotent. -/
theorem claim_C9 (s : String) : canonKey (canonKey s) = canonKey s := by
  simp only [canonKey]
  congr 1
  have hmem : ∀ x ∈ (s.data.map Char.toLower).filter keepChar,
      keepChar x = true := fun x hx => (List.mem_filter.mp hx).2
  have hlow : ((s.data.map Char.toLower).filter keepChar).map Char.toLower
      = (s.data.map Char.toLower).filter keepChar := by
    refine (List.map_congr_left ?_).trans (List.map_id _)
    intro x hx
    rcases List.mem_map.mp (List.mem_of_mem_filter hx) with ⟨c, _, hc⟩
    rw [← hc, toLower_idem, hc]
    rfl
  calc ((String.mk ((s.data.map Char.toLower).filter keepChar)).data.map
          Char.toLower).filter keepChar
      = (((s.data.map Char.toLower).filter keepChar).map Char.toLower).filter
          keepChar := rfl
    _ = ((s.data.map Char.toLower).filter keepChar).filter keepChar := by
          rw [hlow]
    _ = (s.data.map Char.toLower).filter keepChar :=
          List.filter_eq_self.mpr hmem
/-! ### Membership facts about the ranking output -/

theorem uniqueFirstAux_subset {x : String} :
    ∀ {l seen : List String}, x ∈ uniqueFirstAux seen l → x ∈ l := by
  intro l
  induction l with
  | nil => intro seen h; cases h
  | cons y ys ih =>
    intro seen h
    simp only [uniqueFirstAux] at h
    by_cases hc : seen.contains y
    · rw [if_pos hc] at h
      exact List.mem_cons_of_mem y (ih h)
    · rw [if_neg hc] at h
      rcases List.mem_cons.mp h with h | h
      · exact h ▸ List.mem_cons_self y ys
      · exact List.mem_cons_of_mem y (ih h)

theorem rowsOf_ne_nil_of_mem_artistKeys {rows : List Track} {a : String}
    (h : a ∈ artistKeys rows) : rowsOf rows a ≠ [] := by
  have h1 : a ∈ uniqueFirst (rows.map (fun r => r.artist_name)) :=
    (List.mem_insertionSort strLeR).mp h
  have h2 : a ∈ rows.map (fun r => r.artist_name) := uniqueFirstAux_subset h1
  rcases List.mem_map.mp h2 with ⟨r, hr, hra⟩
  have : r ∈ rowsOf rows a :=
    List.mem_filter.mpr ⟨hr, by rw [hra]; exact beq_self_eq_true a⟩
  exact List.ne_nil_of_mem this

theorem mem_calculate_top_artists {data : List Track} {filt : String}
    {agg : ArtistAggregate} (h : agg ∈ calculate_top_artists data filt) :
    ∃ a ∈ artistKeys (candidateRows data filt),
      agg = mkAgg (candidateRows data filt) a := by
  simp only [calculate_top_artists] at h
  by_cases h0 : (candidateRows data filt).length = 0
  · rw [if_pos h0] at h; cases h
  · rw [if_neg h0] at h
    have h1 := (List.mem_insertionSort avgDescR).mp (List.mem_of_mem_take h)
    rcases List.mem_map.mp h1 with ⟨a, ha, haeq⟩
    exact ⟨a, ha, haeq.symm⟩
theorem mkAgg_artist (f : List Track) (a : String) :
    (mkAgg f a).artist_name = a := rfl

theorem mkAgg_avg (f : List Track) (a : String) :
    (mkAgg f a).avg_top3_popularity =
      round1 (meanPop ((top3 f a).map (fun r => r.popularity))) := rfl

theorem mkAgg_best_pop (f : List Track) (a : String) :
    (mkAgg f a).best_song_popularity =
      maxPopList ((top3 f a).map (fun r => r.popularity)) := rfl

theorem mkAgg_best_song (f : List Track) (a : String) :
    (mkAgg f a).best_song =
      ((top3 f a).head?.map (fun r => r.track_name)).getD "" := rfl

/-! ### C5: the aggregate invariant -/

/-- C5: every returned aggregate's `best_song` is a popularity-maximal
track of that artist within the candidate set, and its average is the
rounded mean of the at most three highest-popularity rows (every dropped
row has popularity at most that of every kept row). -/
theorem claim_C5 (data : List Track) (filt : String) (agg : ArtistAggregate)
    (hagg : agg ∈ calculate_top_artists data filt) :
    ∃ t ∈ rowsOf (candidateRows data filt) agg.artist_name,
      t.track_name = agg.best_song ∧
      t.popularity = agg.best_song_popularity ∧
      (∀ u ∈ rowsOf (candidateRows data filt) agg.artist_name,
        u.popularity ≤ t.popularity) ∧
      agg.avg_top3_popularity =
        round1 (meanPop ((top3 (candidateRows data filt) agg.artist_name).map
          (fun r => r.popularity))) ∧
      (top3 (candidateRows data filt) agg.artist_name).length ≤ 3 ∧
      (∀ x ∈ top3 (candidateRows data filt) agg.artist_name,
        ∀ y ∈ (sortPopDesc (rowsOf (candidateRows data filt)
            agg.artist_name)).drop 3, y.popularity ≤ x.popularity) := by
  obtain ⟨a, ha, haeq⟩ := mem_calculate_top_artists hagg
  subst haeq
  rw [mkAgg_artist, mkAgg_avg, mkAgg_best_pop, mkAgg_best_song]
  have hne : rowsOf (candidateRows data filt) a ≠ [] :=
    rowsOf_ne_nil_of_mem_artistKeys ha
  have hperm : (sortPopDesc (rowsOf (candidateRows data filt) a)).Perm
      (rowsOf (candidateRows data filt) a) := List.perm_insertionSort _ _
  have hsorted : (sortPopDesc (rowsOf (candidateRows data filt) a)).Sorted
      popDescR := List.sorted_insertionSort popDescR _
  cases hs : sortPopDesc (rowsOf (candidateRows data filt) a) with
  | nil =>
    exact absurd (List.length_eq_zero.mp
      (by rw [← hperm.length_eq, hs]; rfl)) hne
  | cons hd tl =>
    have hsorted2 : (hd :: tl).Sorted popDescR := hs ▸ hsorted
    have htl : ∀ b ∈ tl, b.popularity ≤ hd.popularity :=
      fun b hb => List.rel_of_sorted_cons hsorted2 b hb
    have h3 : top3 (candidateRows data filt) a = hd :: tl.take 2 := by
      simp [top3, hs]
    refine ⟨hd, hperm.subset (by rw [hs]; exact List.mem_cons_self hd tl),
      ?_, ?_, ?_, rfl, ?_, ?_⟩
    · rw [h3]; rfl
    · rw [h3]
      have : maxPopList (hd.popularity :: (tl.take 2).map
          (fun r => r.popularity)) = hd.popularity := by
        refine maxPopList_cons_of_le ?_
        intro q hq
        rcases List.mem_map.mp hq with ⟨y, hy, hyq⟩
        exact hyq ▸ htl y (List.mem_of_mem_take hy)
      rw [List.map_cons, this]
    · intro u hu
      have hu2 : u ∈ hd :: tl := by
        rw [← hs]; exact hperm.mem_iff.mpr hu
      rcases List.mem_cons.mp hu2 with h | h
      · exact h ▸ le_refl _
      · exact htl u h
    · rw [h3]
      have := List.length_take_le 2 tl
      simp only [List.length_cons]
      omega
    · intro x hx y hy
      rw [h3] at hx
      exact hsorted2.rel_of_mem_take_of_mem_drop
        (show x ∈ List.take 3 (hd :: tl) by simpa using hx) hy
/-! ### C6: the rounded mean never exceeds the best popularity -/

theorem meanPop_le_max {ps : List Int} (h : ps ≠ []) :
    meanPop ps ≤ (maxPopList ps : ℚ) := by
  cases ps with
  | nil => exact absurd rfl h
  | cons p rest =>
    have hle : ∀ x ∈ p :: rest, x ≤ maxPopList (p :: rest) :=
      fun x hx => maxPopList_ge hx
    have hsum : (p :: rest).sum ≤ (p :: rest).length • maxPopList (p :: rest) :=
      List.sum_le_card_nsmul _ _ hle
    rw [nsmul_eq_mul] at hsum
    have hlen : (0 : ℚ) < ((p :: rest).length : ℚ) := by
      simp [List.length_cons]
      positivity
    rw [meanPop, div_le_iff₀ hlen]
    have hq : (((p :: rest).sum : ℤ) : ℚ) ≤
        ((((p :: rest).length : ℤ) * maxPopList (p :: rest) : ℤ) : ℚ) := by
      exact_mod_cast hsum
    push_cast at hq ⊢
    linarith

theorem round1_le_intCast {q : ℚ} {m : Int} (h : q ≤ (m : ℚ)) :
    round1 q ≤ (m : ℚ) := by
  have h1 : (10 : ℚ) * q ≤ ((10 * m : ℤ) : ℚ) := by push_cast; linarith
  have h2 : round ((10 : ℚ) * q) ≤ round (((10 * m : ℤ) : ℚ)) := by
    rw [round_eq, round_eq]
    exact Int.floor_le_floor (by linarith)
  rw [round_intCast] at h2
  have h3 : ((round ((10 : ℚ) * q) : ℤ) : ℚ) ≤ ((10 * m : ℤ) : ℚ) :=
    Int.cast_le.mpr h2
  rw [round1]
  push_cast at h3 ⊢
  linarith

theorem top3_map_ne_nil {rows : List Track} {a : String}
    (h : a ∈ artistKeys rows) :
    (top3 rows a).map (fun r => r.popularity) ≠ [] := by
  have h1 : rowsOf rows a ≠ [] := rowsOf_ne_nil_of_mem_artistKeys h
  have h2 : sortPopDesc (rowsOf rows a) ≠ [] := by
    intro hnil
    apply h1
    have := (List.perm_insertionSort popDescR (rowsOf rows a)).length_eq
    rw [sortPopDesc] at hnil
    rw [hnil] at this
    exact List.length_eq_zero.mp this.symm
  intro hnil
  rcases List.map_eq_nil_iff.mp hnil |> List.take_eq_nil_iff.mp with h | h
  · exact absurd h (by norm_num)
  · exact h2 h

/-- C6: every returned aggregate satisfies
`avg_top3_popularity ≤ best_song_popularity`. -/
theorem claim_C6 (data : List Track) (filt : String) (agg : ArtistAggregate)
    (hagg : agg ∈ calculate_top_artists data filt) :
    agg.avg_top3_popularity ≤ (agg.best_song_popularity : ℚ) := by
  obtain ⟨a, ha, haeq⟩ := mem_calculate_top_artists hagg
  subst haeq
  rw [mkAgg_avg, mkAgg_best_pop]
  exact round1_le_intCast (meanPop_le_max (top3_map_ne_nil ha))

/-- A one-row dataset used to witness C5 and C6. -/
def oneTrackData : List Track := [⟨"Pop", "A", "S", 90⟩]

/-- The ranking output on `oneTrackData` (helper for the C5/C6 witnesses). -/
theorem calculate_oneTrack :
    calculate_top_artists oneTrackData "Pop" = [⟨"A", 90, 90, "S", 1⟩] := by
  have hA : mkAgg oneTrackData "A" = ⟨"A", 90, 90, "S", 1⟩ := by
    have h3 : top3 oneTrackData "A" = [⟨"Pop", "A", "S", 90⟩] := by decide
    have hr : (rowsOf oneTrackData "A").length = 1 := by decide
    simp only [mkAgg, h3, hr, ArtistAggregate.mk.injEq]
    refine ⟨trivial, ?_, by decide, by decide, trivial⟩
    norm_num [meanPop, round1, round_eq]
  have hfil : candidateRows oneTrackData "Pop" = oneTrackData := by decide
  have hkeys : artistKeys oneTrackData = ["A"] := by decide
  have hlen : oneTrackData.length = 1 := by decide
  simp only [calculate_top_artists, hfil, hlen, hkeys, List.map_cons,
    List.map_nil, hA]
  norm_num [List.insertionSort, List.orderedInsert]

/-- Witness for C5 at the one-row dataset. -/
theorem claim_C5_witness :
    ∃ t ∈ rowsOf (candidateRows oneTrackData "Pop") "A",
      t.track_name = "S" ∧ t.popularity = (90 : Int) := by
  have hmem : (⟨"A", 90, 90, "S", 1⟩ : ArtistAggregate) ∈
      calculate_top_artists oneTrackData "Pop" := by
    rw [calculate_oneTrack]
    exact List.mem_singleton.mpr rfl
  obtain ⟨t, ht, h1, h2, -⟩ := claim_C5 oneTrackData "Pop" _ hmem
  exact ⟨t, ht, h1, h2⟩

/-- Witness for C6 at the one-row dataset. -/
theorem claim_C6_witness :
    (⟨"A", 90, 90, "S", 1⟩ : ArtistAggregate).avg_top3_popularity ≤
      ((⟨"A", 90, 90, "S", 1⟩ : ArtistAggregate).best_song_popularity : ℚ) :=
  claim_C6 oneTrackData "Pop" _
    (by rw [calculate_oneTrack]; exact List.mem_singleton.mpr rfl)
/-! ### C3: the 500-artist cap under the sentinel filter -/

/-- C3: with the sentinel filter and more than 500 distinct artists, the
candidate set is exactly the rows of the 500 artists kept by the cap, the
cap keeps exactly 500 artists, and every kept artist's maximum popularity
is at least that of every dropped artist. -/
theorem claim_C3 (data : List Track) (h : 500 < (artistKeys data).length) :
    candidateRows data "Todos" =
      data.filter (fun r => (top500 data).contains r.artist_name) ∧
    (top500 data).length = 500 ∧
    (∀ a ∈ top500 data, ∀ b ∈ artistKeys data, b ∉ top500 data →
      artistMaxPop data b ≤ artistMaxPop data a) := by
  haveI hto : IsTotal String (capR data) := ⟨fun a b => le_total _ _⟩
  haveI htr : IsTrans String (capR data) :=
    ⟨fun _ _ _ hab hbc => le_trans hbc hab⟩
  have hlen : ((artistKeys data).insertionSort (capR data)).length =
      (artistKeys data).length := List.length_insertionSort _ _
  refine ⟨by simp [candidateRows], ?_, ?_⟩
  · rw [top500, List.length_take, hlen]
    exact min_eq_left (le_of_lt h)
  · intro a ha b hb hbn
    have hsorted : ((artistKeys data).insertionSort (capR data)).Sorted
        (capR data) := List.sorted_insertionSort _ _
    have hbmem : b ∈ (artistKeys data).insertionSort (capR data) :=
      (List.mem_insertionSort _).mpr hb
    have hbdrop : b ∈ ((artistKeys data).insertionSort (capR data)).drop 500 := by
      have hsplit := List.take_append_drop 500
        ((artistKeys data).insertionSort (capR data))
      have hbmem2 : b ∈ ((artistKeys data).insertionSort (capR data)).take 500 ++
          ((artistKeys data).insertionSort (capR data)).drop 500 := by
        rw [hsplit]; exact hbmem
      rcases List.mem_append.mp hbmem2 with h1 | h1
      · exact absurd h1 hbn
      · exact h1
    exact hsorted.rel_of_mem_take_of_mem_drop ha hbdrop

/-- A dataset with 501 distinct artists (names of pairwise different
lengths), used to witness C3. -/
def bigArtistData : List Track :=
  (List.range 501).map
    (fun i => ⟨"g", String.mk (List.replicate i 'a'), "t", (i : Int)⟩)

theorem uniqueFirstAux_eq_self :
    ∀ {l seen : List String}, l.Nodup → (∀ x ∈ l, x ∉ seen) →
      uniqueFirstAux seen l = l := by
  intro l
  induction l with
  | nil => intro seen _ _; rfl
  | cons x xs ih =>
    intro seen hnd hseen
    have hx : ¬ seen.contains x = true := by
      intro hc
      exact hseen x (List.mem_cons_self x xs) (List.elem_iff.mp hc)
    simp only [uniqueFirstAux, if_neg hx]
    congr 1
    refine ih (List.nodup_cons.mp hnd).2 ?_
    intro y hy
    rw [List.mem_cons]
    rintro (rfl | hys)
    · exact (List.nodup_cons.mp hnd).1 hy
    · exact hseen y (List.mem_cons_of_mem x hy) hys

theorem bigArtistData_many_artists : 500 < (artistKeys bigArtistData).length := by
  have hmap : bigArtistData.map (fun r => r.artist_name) =
      (List.range 501).map (fun i => String.mk (List.replicate i 'a')) := by
    rw [bigArtistData, List.map_map]
    rfl
  have hinj : Function.Injective (fun i : ℕ => String.mk (List.replicate i 'a')) := by
    intro i j hij
    have h1 := congrArg (fun s : String => s.data.length) hij
    simpa using h1
  have hnd : (bigArtistData.map (fun r => r.artist_name)).Nodup := by
    rw [hmap]
    exact (List.nodup_range 501).map hinj
  have : uniqueFirst (bigArtistData.map (fun r => r.artist_name)) =
      bigArtistData.map (fun r => r.artist_name) :=
    uniqueFirstAux_eq_self hnd (fun x _ hx => (List.not_mem_nil x) hx)
  rw [artistKeys, List.length_insertionSort, this, hmap,
    List.length_map, List.length_range]
  norm_num

/-- Witness for C3 at the 501-artist dataset. -/
theorem claim_C3_witness :
    500 < (artistKeys bigArtistData).length ∧
    (top500 bigArtistData).length = 500 :=
  ⟨bigArtistData_many_artists,
    (claim_C3 bigArtistData bigArtistData_many_artists).2.1⟩
/-! ### C8: the display-genre list -/

/-- C8 counterexample: on the label list `["Todos"]` the result contains
the sentinel entry twice, so it does not contain exactly one such entry. -/
theorem claim_C8_counterexample :
    ¬ ((distinct_display_genres ["Todos"]).count "Todos" = 1) := by decide

theorem mem_keepReps_key_not_seen :
    ∀ {l seen : List String} {x : String}, x ∈ keepReps l seen →
      canonKey x ∉ seen := by
  intro l
  induction l with
  | nil => intro seen x h; cases h
  | cons g gs ih =>
    intro seen x h
    simp only [keepReps] at h
    by_cases hc : seen.contains (canonKey (normalizeGenre g)) = true
    · rw [if_pos hc] at h
      exact ih h
    · rw [if_neg hc] at h
      rcases List.mem_cons.mp h with rfl | h2
      · exact fun hx => hc (List.elem_iff.mpr hx)
      · exact fun hx => (ih h2) (List.mem_cons_of_mem _ hx)

theorem keepReps_pairwise_keys :
    ∀ (l seen : List String),
      (keepReps l seen).Pairwise (fun a b => canonKey a ≠ canonKey b) := by
  intro l
  induction l with
  | nil => intro seen; exact List.Pairwise.nil
  | cons g gs ih =>
    intro seen
    simp only [keepReps]
    by_cases hc : seen.contains (canonKey (normalizeGenre g)) = true
    · rw [if_pos hc]; exact ih seen
    · rw [if_neg hc]
      refine List.pairwise_cons.mpr ⟨?_, ih _⟩
      intro b hb heq
      exact (mem_keepReps_key_not_seen hb) (heq ▸ List.mem_cons_self _ _)

theorem mem_keepReps_exists :
    ∀ {l seen : List String} {x : String}, x ∈ keepReps l seen →
      ∃ g ∈ l, x = normalizeGenre g := by
  intro l
  induction l with
  | nil => intro seen x h; cases h
  | cons g gs ih =>
    intro seen x h
    simp only [keepReps] at h
    by_cases hc : seen.contains (canonKey (normalizeGenre g)) = true
    · rw [if_pos hc] at h
      rcases ih h with ⟨g2, hg2, hx⟩
      exact ⟨g2, List.mem_cons_of_mem g hg2, hx⟩
    · rw [if_neg hc] at h
      rcases List.mem_cons.mp h with rfl | h2
      · exact ⟨g, List.mem_cons_self g gs, rfl⟩
      · rcases ih h2 with ⟨g2, hg2, hx⟩
        exact ⟨g2, List.mem_cons_of_mem g hg2, hx⟩

/-- C8 amended: the result always begins with the sentinel entry, the
entries after it are sorted ascending with pairwise distinct
canonicalization keys, and the sentinel occurs exactly once provided no
input label's display representative equals the sentinel string itself
(the original claim fails when a label normalizes to the sentinel, see the
counterexample). -/
theorem claim_C8 (labels : List String) :
    (distinct_display_genres labels).head? = some "Todos" ∧
    (distinct_display_genres labels).tail.Sorted strLeR ∧
    (distinct_display_genres labels).tail.Pairwise
      (fun a b => canonKey a ≠ canonKey b) ∧
    ((∀ g ∈ labels, normalizeGenre g ≠ "Todos") →
      (distinct_display_genres labels).count "Todos" = 1) := by
  refine ⟨rfl, List.sorted_insertionSort strLeR _, ?_, ?_⟩
  · have hp : (List.insertionSort strLeR
        (keepReps (uniqueFirst labels) [])).Perm
        (keepReps (uniqueFirst labels) []) := List.perm_insertionSort _ _
    exact (hp.pairwise_iff (fun h he => h he.symm)).mpr
      (keepReps_pairwise_keys (uniqueFirst labels) [])
  · intro hno
    have hnot : "Todos" ∉ (keepReps (uniqueFirst labels) []).insertionSort
        strLeR := by
      intro hmem
      rcases mem_keepReps_exists ((List.mem_insertionSort strLeR).mp hmem)
        with ⟨g, hg, hx⟩
      exact hno g (uniqueFirstAux_subset hg) hx.symm
    show ((("Todos" :: _) : List String).count "Todos") = 1
    rw [List.count_cons_self, List.count_eq_zero.mpr hnot]

/-- Witness for C8: a label list none of whose representatives is the
sentinel yields exactly one sentinel entry. -/
theorem claim_C8_witness :
    (∀ g ∈ (["Hip-Hop", "Rock"] : List String), normalizeGenre g ≠ "Todos") ∧
    (distinct_display_genres ["Hip-Hop", "Rock"]).count "Todos" = 1 :=
  ⟨by decide, (claim_C8 ["Hip-Hop", "Rock"]).2.2.2 (by decide)⟩
